import Mathlib

/-!
Shallow embedding of the message/conversation service layer of the
gigconnect-chat-service repository (src/src/services/message.service.ts).

The two Mongo collections are modelled as lists of records; the collection
operations used by the service (create, aggregate with $match / $sort /
$group+$top / $project, findOneAndUpdate, updateMany, findOne) are embedded
as list operations, and the Socket.IO emits and RabbitMQ publishes performed
by the service are recorded in an explicit effect trace.
-/

/-- Offer sub-record embedded in a message (the `offer` sub-document). -/
structure Offer where
  gigTitle : String
  description : String
  price : Nat
  deliveryDays : Nat
  accepted : Bool
  cancelled : Bool
deriving DecidableEq

/-- Message record (IMessageDocument), with the fields the service reads and
writes.  `id` embeds the Mongo `_id`; `createdAt` is the server-assigned
creation timestamp, modelled as a natural number. -/
structure Message where
  id : String
  conversationId : String
  body : String
  file : String
  fileType : String
  fileSize : String
  fileName : String
  gigId : String
  buyerId : String
  sellerId : String
  senderUsername : String
  senderPicture : String
  receiverUsername : String
  receiverPicture : String
  isRead : Bool
  hasOffer : Bool
  offer : Option Offer
  createdAt : Nat
deriving DecidableEq

/-- Conversation record (IConversationDocument). -/
structure Conversation where
  conversationId : String
  senderUsername : String
  receiverUsername : String
deriving DecidableEq

/-- Email-notification payload (IMessageDetails) built by `addMessage` when
the message carries an offer. -/
structure IMessageDetails where
  sender : String
  amount : Option String
  buyerUsername : String
  sellerUsername : String
  title : Option String
  description : Option String
  deliveryDays : String
  template : String
deriving DecidableEq

/-- Payload of a Socket.IO emit: either a full message document
(event `message received`) or a bare message id (event `message updated`). -/
inductive EmitPayload where
  | fullMessage (m : Message)
  | messageId (id : String)
deriving DecidableEq

/-- Observable side effect of a service operation: a Socket.IO broadcast or a
RabbitMQ publish. -/
inductive Effect where
  | emit (eventName : String) (payload : EmitPayload)
  | publish (exchange routingKey : String) (payload : IMessageDetails) (logDescription : String)
deriving DecidableEq

/-- JavaScript lower-casing of a username (`String.prototype.toLowerCase`). -/
def toLowerStr (s : String) : String := s.map Char.toLower

/-- Result object of a Mongo `updateMany` call. -/
structure UpdateResult where
  acknowledged : Bool
  matchedCount : Nat
  modifiedCount : Nat
deriving DecidableEq

/-- Truthiness of the `updateMany` result in the source's `if (updateResult)`
test: the value tested is the result object itself, not one of its counts,
and a JavaScript object is always truthy. -/
def jsObjectTruthy (_ : UpdateResult) : Bool := true

/-- Modelled from the spec: the Socket.IO server object is created in
src/server.ts, which is not among the sources; by section 7 of the spec a
failed broadcast is best-effort and never surfaces to the service, so the
embedding records the attempted broadcast and swallows any transport
failure (`transportFails`). -/
def emitToSubscribers (transportFails : Bool) (eventName : String) (payload : EmitPayload) :
    List Effect :=
  let attempt : Except String Unit :=
    if transportFails then Except.error "emit failed" else Except.ok ()
  match attempt with
  | Except.ok _ => [Effect.emit eventName payload]
  | Except.error _ => [Effect.emit eventName payload]

/-- Modelled from the spec: `publishDirectMessage` is defined in
src/queues/message.producer.ts, which is not among the sources; by sections
4.5 and 7 of the spec the publisher hands the payload to the broker and
catches, logs and swallows its own failures (`brokerFails`), never rejecting
back into the service. -/
def publishDirectMessage (brokerFails : Bool) (exchange routingKey : String)
    (payload : IMessageDetails) (logDescription : String) : List Effect :=
  let attempt : Except String Unit :=
    if brokerFails then Except.error "publish failed" else Except.ok ()
  match attempt with
  | Except.ok _ => [Effect.publish exchange routingKey payload logDescription]
  | Except.error _ => [Effect.publish exchange routingKey payload logDescription]

/-- createConversation (message.service.ts, lines 15-21): inserts one new
conversation record. -/
def createConversation (conversationId senderUsername receiverUsername : String)
    (cs : List Conversation) : List Conversation :=
  cs ++ [{ conversationId := conversationId,
           senderUsername := senderUsername,
           receiverUsername := receiverUsername }]

/-- addMessage (message.service.ts, lines 29-56): persists the message; if
`hasOffer` is set, builds the email payload from the message data and hands
it to the publisher with the fixed exchange, routing key and log line; then
emits one `message received` event carrying the full stored document, and
returns the stored document.  The returned triple is
(returned document, new message store, effect trace). -/
def addMessage (brokerFails transportFails : Bool) (data : Message) (s : List Message) :
    Message × List Message × List Effect :=
  let message := data
  let s' := s ++ [message]
  let offerEffects :=
    if data.hasOffer then
      publishDirectMessage brokerFails "gigconnect-order-exchange" "order-email"
        { sender := data.senderUsername,
          amount := Option.map (fun o => toString o.price) data.offer,
          buyerUsername := toLowerStr data.receiverUsername,
          sellerUsername := toLowerStr data.senderUsername,
          title := Option.map (fun o => o.gigTitle) data.offer,
          description := Option.map (fun o => o.description) data.offer,
          deliveryDays := (match data.offer with
            | some o => toString o.deliveryDays
            | none => "undefined"),
          template := "offer" }
        "Order email sent to notification service"
    else []
  (message, s', offerEffects ++ emitToSubscribers transportFails "message received" (EmitPayload.fullMessage message))

/-- getConversation (message.service.ts, lines 65-74): all conversation
records matching the two usernames in either direction. -/
def getConversation (sender receiver : String) (cs : List Conversation) : List Conversation :=
  cs.filter fun c =>
    (c.senderUsername == sender && c.receiverUsername == receiver) ||
    (c.senderUsername == receiver && c.receiverUsername == sender)

/-- The $or participation filter of getUserConversationList: the user is the
sender or the receiver of the message. -/
def userParticipates (username : String) (m : Message) : Bool :=
  m.senderUsername == username || m.receiverUsername == username

/-- The $top accumulator with `sortBy createdAt: -1`: the group member with
the greatest `createdAt` (ties broken deterministically towards the earlier
list element; the aggregation leaves tie order unspecified). -/
def latestMsg : List Message → Option Message
  | [] => none
  | m :: rest =>
    match latestMsg rest with
    | none => some m
    | some a => if m.createdAt < a.createdAt then some a else some m

/-- Result shape of the $project stage of getUserConversationList: exactly
the fields listed at message.service.ts lines 107-122; in particular no
`offer` sub-record and no fileType/fileSize/fileName. -/
structure MessagePreview where
  id : String
  conversationId : String
  sellerId : String
  buyerId : String
  receiverUsername : String
  receiverPicture : String
  senderUsername : String
  senderPicture : String
  body : String
  file : String
  gigId : String
  isRead : Bool
  hasOffer : Bool
  createdAt : Nat
deriving DecidableEq

/-- The $project stage of getUserConversationList applied to the group's
top message. -/
def projectPreview (m : Message) : MessagePreview :=
  { id := m.id,
    conversationId := m.conversationId,
    sellerId := m.sellerId,
    buyerId := m.buyerId,
    receiverUsername := m.receiverUsername,
    receiverPicture := m.receiverPicture,
    senderUsername := m.senderUsername,
    senderPicture := m.senderPicture,
    body := m.body,
    file := m.file,
    gigId := m.gigId,
    isRead := m.isRead,
    hasOffer := m.hasOffer,
    createdAt := m.createdAt }

/-- getUserConversationList (message.service.ts, lines 83-125): $match the
user's messages, $group them by conversationId keeping the $top message by
descending createdAt, and $project the fixed preview fields. -/
def getUserConversationList (username : String) (s : List Message) : List MessagePreview :=
  let filtered := s.filter (userParticipates username)
  ((filtered.map fun m => m.conversationId).dedup).filterMap fun cid =>
    Option.map projectPreview (latestMsg (filtered.filter fun m => m.conversationId == cid))

/-- The $or pair filter of getMessages: sender/receiver in either direction. -/
def messagePairMatches (sender receiver : String) (m : Message) : Bool :=
  (m.senderUsername == sender && m.receiverUsername == receiver) ||
  (m.senderUsername == receiver && m.receiverUsername == sender)

/-- Insertion step of the $sort by ascending createdAt. -/
def insertByCreatedAt (m : Message) : List Message → List Message
  | [] => [m]
  | x :: xs =>
    if m.createdAt ≤ x.createdAt then m :: x :: xs else x :: insertByCreatedAt m xs

/-- The `$sort: createdAt: 1` stage, embedded as an insertion sort. -/
def sortByCreatedAt : List Message → List Message
  | [] => []
  | m :: rest => insertByCreatedAt m (sortByCreatedAt rest)

/-- getMessages (message.service.ts, lines 134-143): all messages between the
two usernames in either direction, sorted ascending by createdAt. -/
def getMessages (sender receiver : String) (s : List Message) : List Message :=
  sortByCreatedAt (s.filter (messagePairMatches sender receiver))

/-- getUserMessages (message.service.ts, lines 151-156): all messages of one
conversation, sorted ascending by createdAt. -/
def getUserMessages (messageConversationId : String) (s : List Message) : List Message :=
  sortByCreatedAt (s.filter fun m => m.conversationId == messageConversationId)

/-- `findOneAndUpdate` on the `_id` filter: update the first record with the
given id, leave the rest of the store untouched. -/
def updateFirstById (messageId : String) (f : Message → Message) : List Message → List Message
  | [] => []
  | m :: rest =>
    if m.id == messageId then f m :: rest else m :: updateFirstById messageId f rest

/-- The `$set offer.<type> = true` update of updateOffer.  The source writes
the caller-supplied `type` verbatim into the nested field path; the embedding
models the decision flags the offer record carries.  (Mongo would create a
fresh nested field for an unknown name; no claim depends on that.) -/
def setOfferFlag (type : String) (m : Message) : Message :=
  match m.offer with
  | none => m
  | some o =>
    if type == "accepted" then { m with offer := some { o with accepted := true } }
    else if type == "cancelled" then { m with offer := some { o with cancelled := true } }
    else m

/-- updateOffer (message.service.ts, lines 165-175): findOneAndUpdate on the
message id setting `offer.<type>` to true, returning (with `new: true`) the
updated document — or, as in Mongo, a null/absent document when no record
has that id.  The source has no throw path, so the Except value is always
`ok`. -/
def updateOffer (messageId type : String) (s : List Message) :
    Except String (Option Message) × List Message :=
  let s' := updateFirstById messageId (setOfferFlag type) s
  (Except.ok (s'.find? fun m => m.id == messageId), s')

/-- markMessageAsRead (message.service.ts, lines 177-189): findOneAndUpdate
setting `isRead := true`, then unconditionally emit one `message updated`
event carrying the message id, and return the (possibly null/absent)
document.  The source has no throw path. -/
def markMessageAsRead (transportFails : Bool) (messageId : String) (s : List Message) :
    Except String (Option Message) × List Message × List Effect :=
  let s' := updateFirstById messageId (fun m => { m with isRead := true }) s
  let message := s'.find? fun m => m.id == messageId
  (Except.ok message, s', emitToSubscribers transportFails "message updated" (EmitPayload.messageId messageId))

/-- The updateMany filter of markManyMessagesAsRead: sender-to-receiver
direction with `isRead: false`. -/
def markManyMatches (receiver sender : String) (m : Message) : Bool :=
  m.senderUsername == sender && m.receiverUsername == receiver && m.isRead == false

/-- markManyMessagesAsRead (message.service.ts, lines 191-212): updateMany
setting `isRead := true` on every unread message from `sender` to
`receiver`; then the source tests `if (updateResult)` on the updateMany
result object — which is always truthy — and in that branch finds the anchor
message by id, emits one `message updated` event with the anchor id and
returns the (possibly null/absent) anchor; the `else` branch throwing
`No messages were updated` is therefore unreachable. -/
def markManyMessagesAsRead (transportFails : Bool) (receiver sender messageId : String)
    (s : List Message) : Except String (Option Message) × List Message × List Effect :=
  let matched := (s.filter (markManyMatches receiver sender)).length
  let updateResult : UpdateResult :=
    { acknowledged := true, matchedCount := matched, modifiedCount := matched }
  let s' := s.map fun m =>
    if markManyMatches receiver sender m then { m with isRead := true } else m
  if jsObjectTruthy updateResult then
    (Except.ok (s'.find? fun m => m.id == messageId), s',
      emitToSubscribers transportFails "message updated" (EmitPayload.messageId messageId))
  else
    (Except.error "No messages were updated", s', [])

/-- Full-message emits of a trace, with their event names. -/
def emittedFull (effs : List Effect) : List (String × Message) :=
  effs.filterMap fun e =>
    match e with
    | Effect.emit n (EmitPayload.fullMessage m) => some (n, m)
    | _ => none

/-- Message-id emits of a trace, with their event names. -/
def emittedIds (effs : List Effect) : List (String × String) :=
  effs.filterMap fun e =>
    match e with
    | Effect.emit n (EmitPayload.messageId i) => some (n, i)
    | _ => none

/-- Publish calls of a trace: exchange, routing key, payload, log line. -/
def publishedCalls (effs : List Effect) : List (String × String × IMessageDetails × String) :=
  effs.filterMap fun e =>
    match e with
    | Effect.publish ex rk p d => some (ex, rk, p, d)
    | _ => none

/-- Concrete message fixture used by the concrete-input theorems. -/
def mkMsg (i cid su ru : String) (r ho : Bool) (off : Option Offer) (t : Nat) : Message :=
  { id := i, conversationId := cid, body := "hi", file := "", fileType := "",
    fileSize := "", fileName := "", gigId := "g1", buyerId := "b1", sellerId := "s1",
    senderUsername := su, senderPicture := "sp", receiverUsername := ru,
    receiverPicture := "rp", isRead := r, hasOffer := ho, offer := off, createdAt := t }

/-- An already-read message from bob to alice. -/
def msgAnchor : Message := mkMsg "m1" "conv-1" "bob" "alice" true false none 1

/-- Store holding only the already-read anchor message. -/
def storeAnchor : List Message := [msgAnchor]

/-- An unread message from bob to alice. -/
def msgUnread : Message := mkMsg "m2" "conv-1" "bob" "alice" false false none 2

/-- Store holding one unread message from bob to alice. -/
def storeUnread : List Message := [msgUnread]

/-- An earlier message from alice to bob in conv-1. -/
def msgEarly : Message := mkMsg "m3" "conv-1" "alice" "bob" false false none 1

/-- A later message from bob to alice in conv-1. -/
def msgLate : Message := mkMsg "m4" "conv-1" "bob" "alice" false false none 5

/-- Store holding the two conv-1 messages with distinct timestamps. -/
def storePair : List Message := [msgEarly, msgLate]

/-- A concrete offer with price 50. -/
def offer50 : Offer :=
  { gigTitle := "Logo design", description := "A gig offer", price := 50,
    deliveryDays := 3, accepted := false, cancelled := false }

/-- A message from Seller to Buyer carrying the price-50 offer. -/
def msgOffer : Message := mkMsg "m5" "conv-2" "Seller" "Buyer" false true (some offer50) 7

/-- Store holding only the offer message. -/
def storeOffer : List Message := [msgOffer]

theorem publishDirectMessage_effects (b : Bool) (ex rk : String) (p : IMessageDetails) (d : String) :
    publishDirectMessage b ex rk p d = [Effect.publish ex rk p d] := by
  cases b <;> rfl

theorem emitToSubscribers_effects (b : Bool) (n : String) (p : EmitPayload) :
    emitToSubscribers b n p = [Effect.emit n p] := by
  cases b <;> rfl

theorem updateFirstById_of_no_match (mid : String) (f : Message → Message) (s : List Message)
    (h : ∀ m ∈ s, ¬(m.id = mid)) : updateFirstById mid f s = s := by
  induction s with
  | nil => rfl
  | cons m rest ih =>
    have hm : ¬(m.id = mid) := h m (List.mem_cons_self m rest)
    have hb : (m.id == mid) = false := beq_eq_false_iff_ne.mpr hm
    simp only [updateFirstById, hb, Bool.false_eq_true, if_false, List.cons.injEq, true_and]
    exact ih fun x hx => h x (List.mem_cons_of_mem m hx)

/-- C8: getConversation is symmetric in its two username arguments — the
stored pair matches regardless of which party is the stored sender and which
the stored receiver, so both argument orders return identical result sets. -/
theorem getConversation_symm (a b : String) (cs : List Conversation) :
    getConversation a b cs = getConversation b a cs := by
  unfold getConversation
  have hp : (fun c : Conversation =>
        (c.senderUsername == a && c.receiverUsername == b) ||
        (c.senderUsername == b && c.receiverUsername == a)) =
      (fun c : Conversation =>
        (c.senderUsername == b && c.receiverUsername == a) ||
        (c.senderUsername == a && c.receiverUsername == b)) :=
    funext fun c => Bool.or_comm _ _
  rw [hp]

/-- C1: with a store whose only message from bob to alice is already read,
the updateMany filter of markManyMessagesAsRead matches nothing, yet the
call succeeds and returns the already-read anchor message instead of
throwing: the source's `if (updateResult)` tests the always-truthy
updateMany result object, so the `No messages were updated` branch is dead
code and the NoOpError required by the spec is never raised. -/
theorem markManyMessagesAsRead_zero_match_succeeds :
    storeAnchor.filter (markManyMatches "alice" "bob") = [] ∧
    (markManyMessagesAsRead false "alice" "bob" "m1" storeAnchor).1 =
      Except.ok (some msgAnchor) :=
  ⟨rfl, rfl⟩

/-- C3 counterexample: on a store that has no message with id `missing-id`,
updateOffer returns a result — the null/absent document — with no error;
it does not fail with a NotFoundError as the claim states. -/
theorem updateOffer_missing_id_no_error :
    (updateOffer "missing-id" "accepted" storeAnchor).1 = Except.ok none ∧
    (updateOffer "missing-id" "accepted" storeAnchor).1.isOk = true :=
  ⟨rfl, rfl⟩

/-- C3 amended: for every messageId and flag name, if no message with that id
exists in the store, updateOffer succeeds with a null/absent record (the raw
findOneAndUpdate result) and leaves the store unchanged; no error is
raised. -/
theorem updateOffer_missing_returns_none (mid type : String) (s : List Message)
    (h : ∀ m ∈ s, ¬(m.id = mid)) :
    (updateOffer mid type s).1 = Except.ok none ∧ (updateOffer mid type s).2 = s := by
  have hupd : updateFirstById mid (setOfferFlag type) s = s :=
    updateFirstById_of_no_match mid _ s h
  have hfind : s.find? (fun m => m.id == mid) = none :=
    List.find?_eq_none.mpr fun m hm => by
      simpa using h m hm
  constructor
  · show Except.ok ((updateFirstById mid (setOfferFlag type) s).find? fun m => m.id == mid) =
      Except.ok none
    rw [hupd, hfind]
  · show updateFirstById mid (setOfferFlag type) s = s
    exact hupd

/-- Witness for C3's amended theorem at a concrete store. -/
theorem updateOffer_missing_returns_none_witness :
    (updateOffer "missing-id" "accepted" storeUnread).1 = Except.ok none ∧
    (updateOffer "missing-id" "accepted" storeUnread).2 = storeUnread :=
  updateOffer_missing_returns_none "missing-id" "accepted" storeUnread (by decide)

/-- C9: markMessageAsRead emits exactly one `message updated` event carrying
the message id even when no message with that id exists in the store, and in
that case it returns the null/absent record with no error rather than
failing. -/
theorem markMessageAsRead_missing_id (tf : Bool) (mid : String) (s : List Message)
    (h : ∀ m ∈ s, ¬(m.id = mid)) :
    (markMessageAsRead tf mid s).1 = Except.ok none ∧
    (markMessageAsRead tf mid s).2.2 = [Effect.emit "message updated" (EmitPayload.messageId mid)] := by
  have hupd : updateFirstById mid (fun m => { m with isRead := true }) s = s :=
    updateFirstById_of_no_match mid _ s h
  have hfind : s.find? (fun m => m.id == mid) = none :=
    List.find?_eq_none.mpr fun m hm => by
      simpa using h m hm
  constructor
  · show Except.ok ((updateFirstById mid (fun m => { m with isRead := true }) s).find?
      fun m => m.id == mid) = Except.ok none
    rw [hupd, hfind]
  · show emitToSubscribers tf "message updated" (EmitPayload.messageId mid) = _
    exact emitToSubscribers_effects tf _ _

/-- Witness for C9 at a concrete store without the requested id. -/
theorem markMessageAsRead_missing_id_witness :
    (markMessageAsRead false "missing-id" storeUnread).1 = Except.ok none ∧
    (markMessageAsRead false "missing-id" storeUnread).2.2 =
      [Effect.emit "message updated" (EmitPayload.messageId "missing-id")] :=
  markMessageAsRead_missing_id false "missing-id" storeUnread (by decide)

/-- C2: once the durable write has happened, addMessage returns the stored
message and keeps it in the store whatever becomes of the async publish or
the real-time emit: the whole outcome is independent of the broker and
transport failing, because those failures are caught and swallowed by the
publisher and the transport and never propagate to the caller. -/
theorem addMessage_post_write_failures_swallowed (brokerFails transportFails : Bool)
    (data : Message) (s : List Message) :
    (addMessage brokerFails transportFails data s).1 = data ∧
    data ∈ (addMessage brokerFails transportFails data s).2.1 ∧
    addMessage brokerFails transportFails data s = addMessage false false data s := by
  refine ⟨rfl, ?_, ?_⟩
  · show data ∈ s ++ [data]
    simp
  · simp only [addMessage, publishDirectMessage_effects, emitToSubscribers_effects]

/-- C4: addMessage performs exactly one `message received` emit carrying the
full stored message, regardless of offer status; exactly when hasOffer is
true it additionally performs exactly one async publish, on the fixed
exchange and routing key, whose payload holds the sender username, the buyer
and seller usernames lowercased, the offer price rendered as a string, the
gig title, description and delivery days, and the fixed template identifier
`offer`; when hasOffer is false no publish happens. -/
theorem addMessage_offer_effects (bf tf : Bool) (data : Message) (s : List Message) (o : Offer)
    (ho : data.hasOffer = true → data.offer = some o) :
    emittedFull (addMessage bf tf data s).2.2 =
      [("message received", (addMessage bf tf data s).1)] ∧
    (data.hasOffer = true →
      publishedCalls (addMessage bf tf data s).2.2 =
        [("gigconnect-order-exchange", "order-email",
          { sender := data.senderUsername,
            amount := some (toString o.price),
            buyerUsername := toLowerStr data.receiverUsername,
            sellerUsername := toLowerStr data.senderUsername,
            title := some o.gigTitle,
            description := some o.description,
            deliveryDays := toString o.deliveryDays,
            template := "offer" },
          "Order email sent to notification service")]) ∧
    (data.hasOffer = false → publishedCalls (addMessage bf tf data s).2.2 = []) := by
  cases hof : data.hasOffer with
  | false =>
    refine ⟨?_, fun hc => by simp [hof] at hc, fun _ => ?_⟩ <;>
      simp [addMessage, hof, emitToSubscribers_effects, emittedFull, publishedCalls]
  | true =>
    have hoo : data.offer = some o := ho hof
    refine ⟨?_, fun _ => ?_, fun hc => by simp [hof] at hc⟩ <;>
      simp [addMessage, hof, hoo, publishDirectMessage_effects, emitToSubscribers_effects,
        emittedFull, publishedCalls]

/-- Witness for C4 at the concrete price-50 offer message: the payload's
amount renders as the string 50 and the template is `offer`. -/
theorem addMessage_offer_effects_witness :
    toString offer50.price = "50" ∧
    publishedCalls (addMessage false false msgOffer []).2.2 =
      [("gigconnect-order-exchange", "order-email",
        { sender := msgOffer.senderUsername,
          amount := some (toString offer50.price),
          buyerUsername := toLowerStr msgOffer.receiverUsername,
          sellerUsername := toLowerStr msgOffer.senderUsername,
          title := some offer50.gigTitle,
          description := some offer50.description,
          deliveryDays := toString offer50.deliveryDays,
          template := "offer" },
        "Order email sent to notification service")] :=
  ⟨by decide, (addMessage_offer_effects false false msgOffer [] offer50 (fun _ => rfl)).2.1 rfl⟩

theorem mem_insertByCreatedAt (m x : Message) (l : List Message) :
    x ∈ insertByCreatedAt m l ↔ x = m ∨ x ∈ l := by
  induction l with
  | nil => simp [insertByCreatedAt]
  | cons a t ih =>
    by_cases hc : m.createdAt ≤ a.createdAt
    · simp [insertByCreatedAt, hc]
    · simp [insertByCreatedAt, hc, ih]
      tauto

theorem pairwise_insertByCreatedAt (m : Message) (l : List Message)
    (h : List.Pairwise (fun a b => a.createdAt ≤ b.createdAt) l) :
    List.Pairwise (fun a b => a.createdAt ≤ b.createdAt) (insertByCreatedAt m l) := by
  induction l with
  | nil => simp [insertByCreatedAt]
  | cons a t ih =>
    rcases List.pairwise_cons.mp h with ⟨ha, ht⟩
    by_cases hc : m.createdAt ≤ a.createdAt
    · rw [insertByCreatedAt, if_pos hc]
      refine List.pairwise_cons.mpr ⟨?_, h⟩
      intro y hy
      rcases List.mem_cons.mp hy with hya | hyt
      · exact hya ▸ hc
      · exact le_trans hc (ha y hyt)
    · rw [insertByCreatedAt, if_neg hc]
      refine List.pairwise_cons.mpr ⟨?_, ih ht⟩
      intro y hy
      rcases (mem_insertByCreatedAt m y t).mp hy with hym | hyt
      · exact hym ▸ le_of_not_le hc
      · exact ha y hyt

theorem pairwise_sortByCreatedAt (l : List Message) :
    List.Pairwise (fun a b => a.createdAt ≤ b.createdAt) (sortByCreatedAt l) := by
  induction l with
  | nil => simp [sortByCreatedAt]
  | cons m rest ih => exact pairwise_insertByCreatedAt m _ ih

theorem mem_sortByCreatedAt (x : Message) (l : List Message) :
    x ∈ sortByCreatedAt l ↔ x ∈ l := by
  induction l with
  | nil => simp [sortByCreatedAt]
  | cons m rest ih =>
    rw [sortByCreatedAt, mem_insertByCreatedAt, ih, List.mem_cons]

/-- C6: a message just stored by addMessage is present in a subsequent
getUserMessages on its conversationId, and for every conversationId and
every store the sequence getUserMessages returns is non-decreasing in
createdAt. -/
theorem addMessage_getUserMessages (bf tf : Bool) (data : Message) (s s0 : List Message)
    (cid : String) :
    (addMessage bf tf data s).1 ∈
      getUserMessages (addMessage bf tf data s).1.conversationId (addMessage bf tf data s).2.1 ∧
    List.Pairwise (fun a b => a.createdAt ≤ b.createdAt) (getUserMessages cid s0) := by
  constructor
  · show data ∈ getUserMessages data.conversationId (s ++ [data])
    rw [getUserMessages, mem_sortByCreatedAt, List.mem_filter]
    refine ⟨by simp, by simp⟩
  · exact pairwise_sortByCreatedAt _

theorem list_get_map {α β : Type} (f : α → β) (l : List α) (i : Nat) (h : i < l.length)
    (h2 : i < (l.map f).length) : (l.map f).get ⟨i, h2⟩ = f (l.get ⟨i, h⟩) := by
  induction l generalizing i with
  | nil => exact absurd h (Nat.not_lt_zero i)
  | cons a t ih =>
    cases i with
    | zero => rfl
    | succ n => exact ih n (Nat.lt_of_succ_lt_succ h) (Nat.lt_of_succ_lt_succ h2)

/-- C7: markManyMessagesAsRead leaves the store the same length and, record
by record, sets isRead to true on exactly the messages whose sender is
`sender`, whose receiver is `receiver` and which are unread — every other
field of an updated record, and every record not matching that
direction-specific filter, is left unchanged. -/
theorem markManyMessagesAsRead_updates_exactly (tf : Bool) (receiver sender mid : String)
    (s : List Message) (i : Nat) (h : i < s.length) :
    ((markManyMessagesAsRead tf receiver sender mid s).2.1).length = s.length ∧
    ∃ h2 : i < ((markManyMessagesAsRead tf receiver sender mid s).2.1).length,
      (((s.get ⟨i, h⟩).senderUsername = sender ∧ (s.get ⟨i, h⟩).receiverUsername = receiver ∧
          (s.get ⟨i, h⟩).isRead = false) →
        ((markManyMessagesAsRead tf receiver sender mid s).2.1).get ⟨i, h2⟩ =
          { s.get ⟨i, h⟩ with isRead := true }) ∧
      (¬((s.get ⟨i, h⟩).senderUsername = sender ∧ (s.get ⟨i, h⟩).receiverUsername = receiver ∧
          (s.get ⟨i, h⟩).isRead = false) →
        ((markManyMessagesAsRead tf receiver sender mid s).2.1).get ⟨i, h2⟩ = s.get ⟨i, h⟩) := by
  have hlen : ((markManyMessagesAsRead tf receiver sender mid s).2.1).length = s.length :=
    List.length_map s _
  refine ⟨hlen, hlen ▸ h, ?_, ?_⟩
  · intro hcond
    have hget := list_get_map
      (fun m => if markManyMatches receiver sender m then { m with isRead := true } else m)
      s i h (hlen ▸ h)
    have hm : markManyMatches receiver sender (s.get ⟨i, h⟩) = true := by
      simp only [markManyMatches, Bool.and_eq_true, beq_iff_eq]
      exact ⟨⟨hcond.1, hcond.2.1⟩, hcond.2.2⟩
    exact hget.trans (by rw [hm]; simp)
  · intro hcond
    have hget := list_get_map
      (fun m => if markManyMatches receiver sender m then { m with isRead := true } else m)
      s i h (hlen ▸ h)
    cases hm : markManyMatches receiver sender (s.get ⟨i, h⟩) with
    | false => exact hget.trans (by rw [hm]; simp)
    | true =>
      exfalso
      apply hcond
      simpa [markManyMatches, and_assoc] using hm

/-- Witness for C7: the single unread bob-to-alice message gets isRead set
with all other fields unchanged. -/
theorem markManyMessagesAsRead_updates_exactly_witness :
    ((markManyMessagesAsRead false "alice" "bob" "m2" storeUnread).2.1).get ⟨0, by decide⟩ =
      { storeUnread.get ⟨0, by decide⟩ with isRead := true } := by
  obtain ⟨hlen, h2, hupd, hskip⟩ :=
    markManyMessagesAsRead_updates_exactly false "alice" "bob" "m2" storeUnread 0 (by decide)
  exact hupd ⟨rfl, rfl, rfl⟩

theorem latestMsg_some_of_ne_nil (l : List Message) (h : l ≠ []) :
    ∃ a, latestMsg l = some a := by
  cases l with
  | nil => exact absurd rfl h
  | cons m rest =>
    cases hr : latestMsg rest with
    | none => exact ⟨m, by simp [latestMsg, hr]⟩
    | some a =>
      by_cases hc : m.createdAt < a.createdAt
      · exact ⟨a, by simp [latestMsg, hr, hc]⟩
      · exact ⟨m, by simp [latestMsg, hr, hc]⟩

theorem latestMsg_mem (l : List Message) (a : Message) (h : latestMsg l = some a) :
    a ∈ l := by
  induction l generalizing a with
  | nil => simp [latestMsg] at h
  | cons m rest ih =>
    cases hr : latestMsg rest with
    | none =>
      simp only [latestMsg, hr, Option.some.injEq] at h
      subst h
      exact List.mem_cons_self m rest
    | some b =>
      simp only [latestMsg, hr] at h
      by_cases hc : m.createdAt < b.createdAt
      · rw [if_pos hc, Option.some.injEq] at h
        subst h
        exact List.mem_cons_of_mem m (ih _ hr)
      · rw [if_neg hc, Option.some.injEq] at h
        subst h
        exact List.mem_cons_self m rest

theorem latestMsg_ge (l : List Message) (a : Message) (h : latestMsg l = some a) :
    ∀ x ∈ l, x.createdAt ≤ a.createdAt := by
  induction l generalizing a with
  | nil => simp [latestMsg] at h
  | cons m rest ih =>
    intro x hx
    cases hr : latestMsg rest with
    | none =>
      have hrest : rest = [] := by
        cases rest with
        | nil => rfl
        | cons y t =>
          exfalso
          obtain ⟨z, hz⟩ := latestMsg_some_of_ne_nil (y :: t) (by simp)
          rw [hz] at hr
          cases hr
      subst hrest
      simp only [latestMsg, Option.some.injEq] at h
      subst h
      rw [List.mem_singleton] at hx
      subst hx
      exact le_refl _
    | some b =>
      simp only [latestMsg, hr] at h
      by_cases hc : m.createdAt < b.createdAt
      · rw [if_pos hc, Option.some.injEq] at h
        subst h
        rcases List.mem_cons.mp hx with rfl | hxr
        · exact le_of_lt hc
        · exact ih _ hr x hxr
      · rw [if_neg hc, Option.some.injEq] at h
        subst h
        rcases List.mem_cons.mp hx with rfl | hxr
        · exact le_refl _
        · exact le_trans (ih b hr x hxr) (Nat.le_of_not_lt hc)

theorem filterMap_map_eq_self {α β : Type} (f : α → Option β) (g : β → α) (l : List α)
    (h : ∀ a ∈ l, ∃ b, f a = some b ∧ g b = a) : (l.filterMap f).map g = l := by
  induction l with
  | nil => rfl
  | cons a t ih =>
    obtain ⟨b, hb, hgb⟩ := h a (List.mem_cons_self a t)
    simp only [List.filterMap_cons, hb, List.map_cons, hgb, List.cons.injEq, true_and]
    exact ih fun x hx => h x (List.mem_cons_of_mem a hx)

theorem convIds_top_some (u : String) (s : List Message) (cid : String)
    (hcid : cid ∈ ((s.filter (userParticipates u)).map fun m => m.conversationId).dedup) :
    ∃ a, latestMsg ((s.filter (userParticipates u)).filter fun m => m.conversationId == cid) =
        some a ∧ a.conversationId = cid := by
  rw [List.mem_dedup] at hcid
  obtain ⟨m, hm, hmc⟩ := List.mem_map.mp hcid
  have hmem : m ∈ (s.filter (userParticipates u)).filter (fun m' => m'.conversationId == cid) :=
    List.mem_filter.mpr ⟨hm, by simp [hmc]⟩
  obtain ⟨a, ha⟩ := latestMsg_some_of_ne_nil _ (List.ne_nil_of_mem hmem)
  refine ⟨a, ha, ?_⟩
  have hamem := latestMsg_mem _ _ ha
  have hcid2 := (List.mem_filter.mp hamem).2
  simpa using hcid2

theorem getUserConversationList_map_convIds (u : String) (s : List Message) :
    (getUserConversationList u s).map (fun p => p.conversationId) =
      ((s.filter (userParticipates u)).map fun m => m.conversationId).dedup := by
  show ((((s.filter (userParticipates u)).map fun m => m.conversationId).dedup).filterMap fun cid =>
      Option.map projectPreview
        (latestMsg ((s.filter (userParticipates u)).filter fun m => m.conversationId == cid))).map
      (fun p => p.conversationId) = _
  apply filterMap_map_eq_self
  intro cid hcid
  obtain ⟨a, ha, hac⟩ := convIds_top_some u s cid hcid
  exact ⟨projectPreview a, by rw [ha]; rfl, hac⟩

theorem getUserConversationList_mem (u : String) (s : List Message) (p : MessagePreview)
    (hp : p ∈ getUserConversationList u s) :
    ∃ m, m ∈ s ∧ userParticipates u m = true ∧ p = projectPreview m ∧
      ∀ m', m' ∈ s → userParticipates u m' = true → m'.conversationId = m.conversationId →
        m'.createdAt ≤ m.createdAt := by
  simp only [getUserConversationList] at hp
  obtain ⟨cid, hcid, hfc⟩ := List.mem_filterMap.mp hp
  obtain ⟨a, ha, hap⟩ := Option.map_eq_some'.mp hfc
  have hamem := latestMsg_mem _ _ ha
  have hafil := List.mem_filter.mp hamem
  have hafil2 := List.mem_filter.mp hafil.1
  refine ⟨a, hafil2.1, hafil2.2, hap.symm, ?_⟩
  intro m' hm' hup' hcc
  have hacid : a.conversationId = cid := by simpa using hafil.2
  have hm'f2 : m' ∈ (s.filter (userParticipates u)).filter (fun m => m.conversationId == cid) := by
    refine List.mem_filter.mpr ⟨List.mem_filter.mpr ⟨hm', hup'⟩, ?_⟩
    simp [hcc, hacid]
  exact latestMsg_ge _ _ ha m' hm'f2

/-- C5: getUserConversationList returns pairwise-distinct conversationIds,
its size is the number of distinct conversations the user participates in
(as sender or receiver), and each returned record carries the maximum
createdAt among the user's messages of that conversation — the maximum is
attained by a stored message and dominates all of them. -/
theorem getUserConversationList_spec (u : String) (s : List Message) :
    ((getUserConversationList u s).map fun p => p.conversationId).Nodup ∧
    (getUserConversationList u s).length =
      (((s.filter (userParticipates u)).map fun m => m.conversationId).dedup).length ∧
    ∀ p, p ∈ getUserConversationList u s →
      (∃ m, m ∈ s ∧ userParticipates u m = true ∧ m.conversationId = p.conversationId ∧
        m.createdAt = p.createdAt) ∧
      ∀ m, m ∈ s → userParticipates u m = true → m.conversationId = p.conversationId →
        m.createdAt ≤ p.createdAt := by
  refine ⟨?_, ?_, ?_⟩
  · rw [getUserConversationList_map_convIds]
    exact List.nodup_dedup _
  · have h := congrArg List.length (getUserConversationList_map_convIds u s)
    rwa [List.length_map] at h
  · intro p hp
    obtain ⟨m, hm, hup, hpm, hmax⟩ := getUserConversationList_mem u s p hp
    subst hpm
    refine ⟨⟨m, hm, hup, rfl, rfl⟩, ?_⟩
    intro m' hm' hup' hcc
    exact hmax m' hm' hup' hcc

/-- Witness for C5 on a two-message conversation: one preview, carrying the
later timestamp, which dominates the earlier message. -/
theorem getUserConversationList_spec_witness :
    (getUserConversationList "alice" storePair).length = 1 ∧
    projectPreview msgLate ∈ getUserConversationList "alice" storePair ∧
    msgEarly.createdAt ≤ (projectPreview msgLate).createdAt := by
  refine ⟨?_, by decide, ?_⟩
  · exact (getUserConversationList_spec "alice" storePair).2.1.trans (by decide)
  · exact ((getUserConversationList_spec "alice" storePair).2.2 (projectPreview msgLate)
      (by decide)).2 msgEarly (by decide) (by decide) (by decide)

/-- C10: every record returned by getUserConversationList is the fixed
projection of some stored message — carrying exactly the projected fields —
and the projection is independent of the message's offer sub-record, so the
previews never contain the offer, even when the underlying most-recent
message has hasOffer = true. -/
theorem getUserConversationList_projection (u : String) (s : List Message) :
    (∀ p, p ∈ getUserConversationList u s → ∃ m, m ∈ s ∧ p = projectPreview m) ∧
    ∀ (m : Message) (o : Option Offer), projectPreview { m with offer := o } = projectPreview m := by
  constructor
  · intro p hp
    obtain ⟨m, hm, _, hpm, _⟩ := getUserConversationList_mem u s p hp
    exact ⟨m, hm, hpm⟩
  · intro m o
    rfl

/-- Witness for C10 at a store whose only (hence most recent) message has
hasOffer = true. -/
theorem getUserConversationList_projection_witness :
    msgOffer.hasOffer = true ∧
    projectPreview msgOffer ∈ getUserConversationList "Seller" storeOffer ∧
    (∃ m, m ∈ storeOffer ∧ projectPreview msgOffer = projectPreview m) ∧
    projectPreview { msgOffer with offer := none } = projectPreview msgOffer :=
  ⟨rfl, by decide,
   (getUserConversationList_projection "Seller" storeOffer).1 (projectPreview msgOffer) (by decide),
   (getUserConversationList_projection "Seller" storeOffer).2 msgOffer none⟩
